import Mathlib

/-!
Verification of the log-pipeline ingestion core: the Fluent Bit Lua key
router (`compose_key.lua`), the ClickHouse Kafka materialized view
(`logs.mv_app_logs_consume`) and the deduplicating store
(`logs.fact_app_log`, a `ReplacingMergeTree(dedup_token)` table with
`PARTITION BY toYYYYMMDD(ts)`, `ORDER BY (date, app, host, ts)` and
`TTL ts + INTERVAL 14 DAY DELETE`).

Times are modelled as `Nat` milliseconds since epoch (the table columns are
`DateTime64(3)`).  ClickHouse built-in parsing functions whose exact accepted
input languages are irrelevant to the claims (`parseDateTimeBestEffortOrNull`,
the JSON parser inside `tryParseJson`) are kept abstract as parameters, so
every theorem quantifies over all possible behaviours of those parsers;
`toInt32OrZero` is modelled concretely.
-/

namespace LogPipeline

/-! ### Lua key router (`fluent-bit/compose_key.lua`) -/

/-- A Fluent Bit record as seen by the Lua filter: a mapping from field
names to values; `none` is Lua `nil` (field absent). -/
structure LuaRecord where
  get : String → Option String

/-- Lua assignment `record[k] = v`. -/
def LuaRecord.set (r : LuaRecord) (k v : String) : LuaRecord :=
  ⟨fun k2 => if k2 = k then some v else r.get k2⟩

/-- Lua `v or d` for a record field: the default is taken only when the
field is `nil` (absent); any string value, including the empty string, is
truthy in Lua and is kept. -/
def luaOr (v : Option String) (d : String) : String :=
  v.getD d

/-- `make_key(tag, ts, record)` from `compose_key.lua`:
`host = record["host"] or "unknown-host"`,
`app = record["app"] or "unknown-app"`,
`record["key"] = host .. ":" .. app`, `return 1, ts, record`. -/
def make_key (tag : String) (ts : Nat) (record : LuaRecord) :
    Int × Nat × LuaRecord :=
  let host := luaOr (record.get "host") "unknown-host"
  let app := luaOr (record.get "app") "unknown-app"
  (1, ts, record.set "key" (host ++ ":" ++ app))

/-! ### ClickHouse values and abstract built-in parsers -/

/-- A structured (JSON-like) value, the content of the `attrs JSON` column. -/
inductive Json where
  | null : Json
  | bool (b : Bool) : Json
  | num (n : Int) : Json
  | str (s : String) : Json
  | obj (fields : List (String × String)) : Json
  deriving DecidableEq, Repr

/-- The empty structure stored when the attrs payload does not parse. -/
def Json.empty : Json := Json.obj []

/-- The parsing cores of the ClickHouse built-ins used by the materialized
view, kept abstract: which strings parse, and to what, does not matter for
any claim.  `bestEffort s = none` models an absent or unparseable timestamp
string; `jsonCore s = none` models a malformed attrs blob. -/
structure CHParsers where
  bestEffort : String → Option Nat
  jsonCore : String → Option Json

/-- SQL `coalesce(a, b)` where `b` is non-Nullable. -/
def coalesce {α : Type} (a : Option α) (b : α) : α :=
  a.getD b

/-- `parseDateTimeBestEffortOrNull`: best-effort date/time parse, `NULL`
(here `none`) on failure. -/
def parseDateTimeBestEffortOrNull (P : CHParsers) (s : String) : Option Nat :=
  P.bestEffort s

/-- The value of a list of decimal digit characters. -/
def natOfDigits (cs : List Char) : Nat :=
  cs.foldl (fun a c => a * 10 + (c.toNat - 48)) 0

/-- Parse an optionally signed run of decimal digits; `none` when the text
is empty, has a stray sign, or contains a non-digit. -/
def parseIntCore : List Char → Option Int
  | [] => none
  | '-' :: rest =>
    if rest ≠ [] ∧ rest.all Char.isDigit then some (-(natOfDigits rest : Int))
    else none
  | '+' :: rest =>
    if rest ≠ [] ∧ rest.all Char.isDigit then some (natOfDigits rest) else none
  | c :: rest =>
    if (c :: rest).all Char.isDigit then some (natOfDigits (c :: rest))
    else none

/-- The integer-parsing core of `toInt32OrZero`: a decimal (optionally
signed) string in Int32 range, `none` otherwise. -/
def parseInt32 (s : String) : Option Int :=
  match parseIntCore s.toList with
  | some n => if -(2 ^ 31) ≤ n ∧ n < 2 ^ 31 then some n else none
  | none => none

/-- `toInt32OrZero`: integer parse of the string, `0` on failure. -/
def toInt32OrZero (s : String) : Int :=
  (parseInt32 s).getD 0

/-- `tryParseJson`: parse the attrs blob as structured JSON, empty
structure on failure. -/
def tryParseJson (P : CHParsers) (s : String) : Json :=
  (P.jsonCore s).getD Json.empty

/-! ### Kafka source rows and the materialized view
(`logs.src_kafka_app_logs`, `logs.mv_app_logs_consume`) -/

/-- A row of the Kafka source table `logs.src_kafka_app_logs`.  All columns
are non-Nullable in the DDL (`String`, `UInt64`, `DateTime`), so every field
is a plain value, never `NULL`. -/
structure SrcRow where
  ts : String
  level : String
  env : String
  app : String
  host : String
  code : String
  message : String
  attrs : String
  _topic : String
  _offset : Nat
  _partition : Nat
  _timestamp : Nat
  deriving DecidableEq, Repr

/-- A durable row of `logs.fact_app_log` (`NormalizedLogRow`).  The `date`
column is `MATERIALIZED toDate(ts)` and is therefore computed, not stored
here. -/
structure Row where
  ts : Nat
  level : String
  env : String
  app : String
  host : String
  code : Int
  message : String
  attrs : Json
  dedup_token : String
  ingest_time : Nat
  deriving DecidableEq, Repr

/-- The SELECT list of `logs.mv_app_logs_consume`, one output row per input
row: `coalesce(parseDateTimeBestEffortOrNull(ts), _timestamp) AS ts`,
`toInt32OrZero(code) AS code`, `tryParseJson(attrs) AS attrs`,
`concat(toString(_partition), '-', toString(_offset)) AS dedup_token`,
`now64(3) AS ingest_time` (the wall clock `now` is store-assigned at write
time and passed in). -/
def mvTransform (P : CHParsers) (now : Nat) (r : SrcRow) : Row :=
  { ts := coalesce (parseDateTimeBestEffortOrNull P r.ts) r._timestamp
    level := r.level
    env := r.env
    app := r.app
    host := r.host
    code := toInt32OrZero r.code
    message := r.message
    attrs := tryParseJson P r.attrs
    dedup_token := toString r._partition ++ "-" ++ toString r._offset
    ingest_time := now }

/-- SQL `x IS NOT NULL` on a value of Nullable type. -/
def sqlIsNotNull {α : Type} (v : Option α) : Bool :=
  v.isSome

/-- The SQL value of the aliased `ts` expression in the view
(`coalesce(...) AS ts`): the coalesce of a Nullable parse result with the
non-Nullable `_timestamp` column is itself non-Nullable. -/
def tsAliasValue (P : CHParsers) (r : SrcRow) : Option Nat :=
  some (coalesce (parseDateTimeBestEffortOrNull P r.ts) r._timestamp)

/-- The view's `WHERE ts IS NOT NULL OR _timestamp IS NOT NULL`.  `ts`
resolves to the SELECT alias (ClickHouse substitutes aliases into WHERE) and
`_timestamp` is a non-Nullable column, so both operands are `IS NOT NULL`
of a value that is never `NULL`. -/
def whereFilter (P : CHParsers) (r : SrcRow) : Bool :=
  sqlIsNotNull (tsAliasValue P r) || sqlIsNotNull (some r._timestamp)

/-- The whole materialized view applied to a block of source rows: filter by
the WHERE clause, then transform each surviving row. -/
def mv_app_logs_consume (P : CHParsers) (now : Nat) (rows : List SrcRow) :
    List Row :=
  (rows.filter (whereFilter P)).map (mvTransform P now)

/-! ### The store (`logs.fact_app_log`)

`ENGINE = ReplacingMergeTree(dedup_token)` with
`ORDER BY (date, app, host, ts)`: a background merge pass collapses the
rows that share the full sorting key (`date`, `app`, `host`, `ts`),
keeping, in each such group, the row whose *version column*
`dedup_token` is greatest (byte-lexicographic string comparison), the last
inserted one among ties.  `TTL ts + INTERVAL 14 DAY DELETE` removes rows
whose event time is at least 14 days in the past during the same
background pass. -/

/-- `toDate(ts)`: the day bucket of a millisecond timestamp.  `PARTITION BY
toYYYYMMDD(ts)` buckets by the same calendar day, so within one physical
partition all rows share this value. -/
def toDate (ts : Nat) : Nat :=
  ts / 86400000

/-- The physical sorting key of `logs.fact_app_log`:
`ORDER BY (date, app, host, ts)` with `date = toDate(ts)`. -/
def sortKey (r : Row) : Nat × String × String × Nat :=
  (toDate r.ts, r.app, r.host, r.ts)

/-- The distinct sorting keys present among the resident rows of a
partition, in order of first appearance. -/
def keys : List Row → List (Nat × String × String × Nat)
  | [] => []
  | r :: rest => sortKey r :: (keys rest).filter (fun k => !decide (k = sortKey r))

/-- The group of resident rows sharing one sorting key. -/
def groupRows (k : Nat × String × String × Nat) (rows : List Row) : List Row :=
  rows.filter (fun r => decide (sortKey r = k))

/-- One step of the replacing merge: of two rows with the same sorting key,
in insertion order, keep the one with the greater version column
`dedup_token`; the later row wins ties. -/
def preferByVersion (a b : Row) : Row :=
  if b.dedup_token < a.dedup_token then a else b

/-- The survivor of a group of rows sharing a sorting key: the row with the
maximal `dedup_token`, the last inserted among ties; `none` for an empty
group. -/
def pickSurvivor : List Row → Option Row
  | [] => none
  | r :: rest => some (rest.foldl preferByVersion r)

/-- One background merge (deduplication) pass of `ReplacingMergeTree` over
the resident rows of one physical partition: for each distinct sorting key,
exactly the survivor of its group remains. -/
def mergePass (rows : List Row) : List Row :=
  (keys rows).filterMap (fun k => pickSurvivor (groupRows k rows))

/-- The retention horizon of `TTL ts + INTERVAL 14 DAY DELETE`, in
milliseconds. -/
def retentionMs : Nat :=
  14 * 86400000

/-- Whether a row's TTL expression `ts + INTERVAL 14 DAY` has been reached
at wall-clock time `now`: expiry depends on the event time `ts` only. -/
def rowExpired (now : Nat) (r : Row) : Bool :=
  decide (r.ts + retentionMs ≤ now)

/-- The retention part of a background pass: drop every expired row. -/
def ttlPass (now : Nat) (rows : List Row) : List Row :=
  rows.filter (fun r => !rowExpired now r)

/-- A full background reconciliation pass at wall-clock time `now`:
replacing merge, then TTL deletion, over one partition's resident rows. -/
def reconcilePass (now : Nat) (rows : List Row) : List Row :=
  ttlPass now (mergePass rows)

/-! ### Helper lemmas about the merge pass -/

theorem mem_groupRows {k : Nat × String × String × Nat} {rows : List Row}
    {r : Row} : r ∈ groupRows k rows ↔ r ∈ rows ∧ sortKey r = k := by
  simp [groupRows, List.mem_filter]

theorem mem_keys_iff (rows : List Row) (k : Nat × String × String × Nat) :
    k ∈ keys rows ↔ ∃ r ∈ rows, sortKey r = k := by
  induction rows with
  | nil => simp [keys]
  | cons r rest ih =>
    simp only [keys, List.mem_cons, List.mem_filter, Bool.not_eq_true',
      decide_eq_false_iff_not, ih]
    by_cases hk : k = sortKey r
    · subst hk
      constructor
      · intro _
        exact ⟨r, Or.inl rfl, rfl⟩
      · intro _
        exact Or.inl rfl
    · constructor
      · rintro (rfl | ⟨⟨x, hx, rfl⟩, _⟩)
        · exact absurd rfl hk
        · exact ⟨x, Or.inr hx, rfl⟩
      · rintro ⟨x, hx, rfl⟩
        rcases hx with rfl | hx2
        · exact absurd rfl hk
        · exact Or.inr ⟨⟨x, hx2, rfl⟩, hk⟩

theorem keys_nodup (rows : List Row) : (keys rows).Nodup := by
  induction rows with
  | nil => simp [keys]
  | cons r rest ih =>
    refine List.nodup_cons.mpr ⟨?_, ih.filter _⟩
    intro hmem
    have h2 := (List.mem_filter.mp hmem).2
    simp at h2

theorem preferByVersion_eq_or (a b : Row) :
    preferByVersion a b = a ∨ preferByVersion a b = b := by
  unfold preferByVersion
  split <;> simp

theorem le_preferByVersion_left (a b : Row) :
    a.dedup_token ≤ (preferByVersion a b).dedup_token := by
  unfold preferByVersion
  split
  · exact le_refl _
  · exact le_of_not_lt (by assumption)

theorem le_preferByVersion_right (a b : Row) :
    b.dedup_token ≤ (preferByVersion a b).dedup_token := by
  unfold preferByVersion
  split
  · exact le_of_lt (by assumption)
  · exact le_refl _

theorem foldl_prefer_mem (l : List Row) (r : Row) :
    l.foldl preferByVersion r ∈ r :: l := by
  induction l generalizing r with
  | nil => simp
  | cons a l ih =>
    rw [List.foldl_cons]
    have h := ih (preferByVersion r a)
    rcases List.mem_cons.mp h with h1 | h1
    · rw [h1]
      rcases preferByVersion_eq_or r a with h2 | h2 <;> rw [h2]
      · exact List.mem_cons_self _ _
      · exact List.mem_cons_of_mem _ (List.mem_cons_self _ _)
    · exact List.mem_cons_of_mem _ (List.mem_cons_of_mem _ h1)

theorem le_foldl_prefer (l : List Row) (r : Row) :
    ∀ x ∈ r :: l, x.dedup_token ≤ (l.foldl preferByVersion r).dedup_token := by
  induction l generalizing r with
  | nil =>
    intro x hx
    rcases List.mem_cons.mp hx with rfl | hx2
    · exact le_refl _
    · simp at hx2
  | cons a l ih =>
    intro x hx
    rw [List.foldl_cons]
    rcases List.mem_cons.mp hx with rfl | hx2
    · exact le_trans (le_preferByVersion_left x a)
        (ih _ _ (List.mem_cons_self _ _))
    · rcases List.mem_cons.mp hx2 with rfl | hx3
      · exact le_trans (le_preferByVersion_right r x)
          (ih _ _ (List.mem_cons_self _ _))
      · exact ih _ _ (List.mem_cons_of_mem _ hx3)

theorem pickSurvivor_some_key {k : Nat × String × String × Nat}
    {rows : List Row} {x : Row}
    (hs : pickSurvivor (groupRows k rows) = some x) :
    x ∈ rows ∧ sortKey x = k := by
  cases hG : groupRows k rows with
  | nil => rw [hG] at hs; simp [pickSurvivor] at hs
  | cons g gs =>
    rw [hG] at hs
    simp only [pickSurvivor, Option.some.injEq] at hs
    subst hs
    have hmem : gs.foldl preferByVersion g ∈ groupRows k rows := by
      rw [hG]; exact foldl_prefer_mem gs g
    exact mem_groupRows.mp hmem

theorem pickSurvivor_spec (k : Nat × String × String × Nat)
    (rows : List Row) (h : ∃ r ∈ rows, sortKey r = k) :
    ∃ s, pickSurvivor (groupRows k rows) = some s ∧ s ∈ rows ∧ sortKey s = k ∧
      ∀ x ∈ groupRows k rows, x.dedup_token ≤ s.dedup_token := by
  obtain ⟨r, hr, hk⟩ := h
  have hg : r ∈ groupRows k rows := mem_groupRows.mpr ⟨hr, hk⟩
  obtain ⟨g, gs, hG⟩ : ∃ g gs, groupRows k rows = g :: gs := by
    cases hGG : groupRows k rows with
    | nil => rw [hGG] at hg; simp at hg
    | cons g gs => exact ⟨g, gs, rfl⟩
  have hsome : pickSurvivor (groupRows k rows) = some (gs.foldl preferByVersion g) := by
    rw [hG]; rfl
  obtain ⟨hmem, hkey⟩ := pickSurvivor_some_key hsome
  refine ⟨gs.foldl preferByVersion g, hsome, hmem, hkey, ?_⟩
  intro x hx
  rw [hG] at hx
  exact le_foldl_prefer gs g x hx

theorem mergePass_subset (rows : List Row) :
    ∀ x ∈ mergePass rows, x ∈ rows := by
  intro x hx
  obtain ⟨k, _, hs⟩ := List.mem_filterMap.mp hx
  exact (pickSurvivor_some_key hs).1

theorem filterMap_count_aux (rows : List Row)
    (k : Nat × String × String × Nat) :
    ∀ ks : List (Nat × String × String × Nat), ks.Nodup →
      (∀ k2 ∈ ks, ∃ r ∈ rows, sortKey r = k2) → k ∈ ks →
      ((ks.filterMap (fun k2 => pickSurvivor (groupRows k2 rows))).filter
        (fun r => decide (sortKey r = k))).length = 1 := by
  intro ks
  induction ks with
  | nil => intro _ _ h; simp at h
  | cons k0 ks ih =>
    intro hnd hall hk
    obtain ⟨s0, hs0, _, hsk0, _⟩ :=
      pickSurvivor_spec k0 rows (hall k0 (List.mem_cons_self _ _))
    rw [List.filterMap_cons_some (f := fun k2 => pickSurvivor (groupRows k2 rows)) hs0]
    by_cases hkk : k = k0
    · subst hkk
      rw [List.filter_cons_of_pos (by simp [hsk0])]
      have hnil : ((ks.filterMap
          (fun k2 => pickSurvivor (groupRows k2 rows))).filter
          (fun r => decide (sortKey r = k))).length = 0 := by
        rw [List.length_eq_zero]
        rw [List.filter_eq_nil_iff]
        intro x hx
        obtain ⟨k2, hk2, hsx⟩ := List.mem_filterMap.mp hx
        have hxk := (pickSurvivor_some_key hsx).2
        have hne : k2 ≠ k := fun h => (List.nodup_cons.mp hnd).1 (h ▸ hk2)
        simp [hxk, hne]
      simp [hnil]
    · rw [List.filter_cons_of_neg (by simp [hsk0, Ne.symm hkk])]
      have hk2 : k ∈ ks := by
        rcases List.mem_cons.mp hk with h | h
        · exact absurd h hkk
        · exact h
      exact ih (List.nodup_cons.mp hnd).2
        (fun k2 h2 => hall k2 (List.mem_cons_of_mem _ h2)) hk2

theorem mergePass_count (rows : List Row) (k : Nat × String × String × Nat)
    (h : ∃ r ∈ rows, sortKey r = k) :
    ((mergePass rows).filter (fun r => decide (sortKey r = k))).length = 1 :=
  filterMap_count_aux rows k (keys rows) (keys_nodup rows)
    (fun k2 hk2 => (mem_keys_iff rows k2).mp hk2) ((mem_keys_iff rows k).mpr h)

theorem mergePass_of_unique (rows : List Row) (r : Row)
    (h : groupRows (sortKey r) rows = [r]) : r ∈ mergePass rows := by
  have hr : r ∈ rows := by
    have hmem : r ∈ groupRows (sortKey r) rows := by rw [h]; simp
    exact (mem_groupRows.mp hmem).1
  refine List.mem_filterMap.mpr ⟨sortKey r, ?_, ?_⟩
  · exact (mem_keys_iff rows _).mpr ⟨r, hr, rfl⟩
  · rw [h]; rfl

theorem mergePass_pair_same_key (a b : Row) (hk : sortKey a = sortKey b)
    (ht : ¬ b.dedup_token < a.dedup_token) : mergePass [a, b] = [b] := by
  simp [mergePass, keys, groupRows, pickSurvivor, preferByVersion, hk, ht]

/-! ### Concrete rows used by counterexamples and witnesses -/

/-- A record whose `host` field is present but empty and whose `app` field
is absent. -/
def emptyHostRecord : LuaRecord :=
  ⟨fun k => if k = "host" then some "" else none⟩

/-- A record with no fields at all. -/
def nilRecord : LuaRecord :=
  ⟨fun _ => none⟩

/-- A concrete behaviour of the abstract ClickHouse parsers: one fixed
timestamp string parses, everything else does not; no attrs blob parses. -/
def sampleParsers : CHParsers :=
  ⟨fun s => if s = "2024-01-01T00:00:00Z" then some 1704067200000 else none,
   fun _ => none⟩

/-- The record of the spec scenario, delivered at partition 3, offset 10. -/
def raw310 : SrcRow :=
  ⟨"2024-01-01T00:00:00Z", "INFO", "prod", "a1", "h1", "200", "msg", "x",
   "app_logs.prod", 10, 3, 1704067200777⟩

/-- A source row whose timestamp, code and attrs fields are all malformed. -/
def rawBad : SrcRow :=
  ⟨"garbage", "INFO", "prod", "a1", "h1", "20x", "msg", "not json",
   "app_logs.prod", 11, 3, 1704067300000⟩

/-- Resident store rows produced by two deliveries of the same transport
message (same `dedup_token`) whose payload timestamp did not parse, so the
row timestamp fell back to two different receipt times: the sorting keys
differ. -/
def ceRowA : Row :=
  ⟨1000, "INFO", "prod", "a1", "h1", 0, "msg", Json.empty, "0-0", 1000⟩

/-- Second delivery of the message behind `ceRowA`; later receipt time. -/
def ceRowB : Row :=
  ⟨2000, "INFO", "prod", "a1", "h1", 0, "msg", Json.empty, "0-0", 2000⟩

/-- A resident row whose `dedup_token` "10-0" is lexicographically smaller
than that of `ceRowD` though its `ingest_time` is later. -/
def ceRowC : Row :=
  ⟨1000, "INFO", "prod", "a1", "h1", 0, "msg", Json.empty, "10-0", 100⟩

/-- Same sorting key as `ceRowC`, lexicographically greater token "9-0",
earlier `ingest_time`. -/
def ceRowD : Row :=
  ⟨1000, "INFO", "prod", "a1", "h1", 0, "msg", Json.empty, "9-0", 50⟩

/-- A resident row with `dedup_token` "0-5", unique in the store below. -/
def ceRowE : Row :=
  ⟨1000, "INFO", "prod", "a1", "h1", 0, "msg", Json.empty, "0-5", 10⟩

/-- A different row (distinct token "0-6", distinct message) sharing the
full sorting key of `ceRowE`. -/
def ceRowF : Row :=
  ⟨1000, "INFO", "prod", "a1", "h1", 0, "msg2", Json.empty, "0-6", 20⟩

/-- A store row whose event time is at epoch, long past the horizon. -/
def oldRow : Row :=
  ⟨0, "INFO", "prod", "a1", "h1", 0, "msg", Json.empty, "2-1", 5⟩

/-- A store row whose event time is exactly the retention span, hence newer
than the horizon when `now = retentionMs + 1`. -/
def freshRow : Row :=
  ⟨retentionMs, "INFO", "prod", "a1", "h1", 0, "msg", Json.empty, "2-2", 6⟩

/-! ### Claim theorems -/

/-- Claim C3, counterexample: a record whose `host` field is the empty
string does not fall back to the sentinel — Lua `or` only fires on `nil` —
so the routed key is ":unknown-app", not the "unknown-host:unknown-app"
the claim requires for an empty host and an absent app. -/
theorem make_key_empty_host_counterexample :
    (make_key "tag" 0 emptyHostRecord).2.2.get "key" = some ":unknown-app" ∧
    (make_key "tag" 0 emptyHostRecord).2.2.get "key" ≠
      some "unknown-host:unknown-app" := by
  constructor
  · rfl
  · decide

/-- Claim C3 (amended): `make_key` is total and deterministic and always
writes `key = host .. ":" .. app`, where each part falls back to its
sentinel exactly when the field is absent (Lua `nil`); an empty-string
value is used verbatim.  A record missing both fields still yields
"unknown-host:unknown-app". -/
theorem make_key_route_spec (tag : String) (ts : Nat) (r : LuaRecord) :
    (make_key tag ts r).2.2.get "key" =
      some (luaOr (r.get "host") "unknown-host" ++ ":" ++
        luaOr (r.get "app") "unknown-app") ∧
    (r.get "host" = none → r.get "app" = none →
      (make_key tag ts r).2.2.get "key" = some "unknown-host:unknown-app") := by
  constructor
  · simp [make_key, LuaRecord.set]
  · intro h1 h2
    simp [make_key, LuaRecord.set, luaOr, h1, h2]

/-- Witness for the amended C3 theorem at the empty record. -/
theorem make_key_route_spec_witness :
    (make_key "t" 3 nilRecord).2.2.get "key" =
      some "unknown-host:unknown-app" :=
  (make_key_route_spec "t" 3 nilRecord).2 rfl rfl

/-- Claim C9: `make_key` modifies only the "key" field — every other field
of the returned record keeps its value, the returned timestamp is the input
`ts`, and the returned status code is `1`. -/
theorem make_key_frame (tag : String) (ts : Nat) (r : LuaRecord) (f : String)
    (hf : f ≠ "key") :
    (make_key tag ts r).2.2.get f = r.get f ∧
    (make_key tag ts r).2.1 = ts ∧
    (make_key tag ts r).1 = 1 := by
  refine ⟨?_, rfl, rfl⟩
  simp [make_key, LuaRecord.set, hf]

/-- Witness for C9: the untouched `host` field of a concrete record. -/
theorem make_key_frame_witness :
    (make_key "t" 3 emptyHostRecord).2.2.get "host" = some "" ∧
    (make_key "t" 3 emptyHostRecord).2.1 = 3 ∧
    (make_key "t" 3 emptyHostRecord).1 = 1 := by
  have h := make_key_frame "t" 3 emptyHostRecord "host" (by decide)
  exact ⟨h.1.trans rfl, h.2.1, h.2.2⟩

/-- Claim C4: the materialized view is total — it emits exactly one
normalized row per source row, whatever the parsers do on the (possibly
malformed) timestamp, code and attrs fields, and its WHERE clause never
excludes a row. -/
theorem mv_consume_total (P : CHParsers) (now : Nat) (rows : List SrcRow) :
    mv_app_logs_consume P now rows = rows.map (mvTransform P now) ∧
    (mv_app_logs_consume P now rows).length = rows.length := by
  have hf : rows.filter (whereFilter P) = rows :=
    List.filter_eq_self.mpr
      (fun x _ => by simp [whereFilter, sqlIsNotNull, tsAliasValue])
  constructor
  · rw [mv_app_logs_consume, hf]
  · rw [mv_app_logs_consume, hf, List.length_map]

/-- Claim C5: the transform's per-field fallbacks — the row timestamp is the
payload timestamp when it parses and the transport receipt time otherwise;
the code is the parsed integer and `0` on parse failure; the attrs are the
parsed blob and the empty structure on parse failure. -/
theorem mvTransform_fallbacks (P : CHParsers) (now : Nat) (r : SrcRow) :
    (∀ t, P.bestEffort r.ts = some t → (mvTransform P now r).ts = t) ∧
    (P.bestEffort r.ts = none → (mvTransform P now r).ts = r._timestamp) ∧
    (∀ n, parseInt32 r.code = some n → (mvTransform P now r).code = n) ∧
    (parseInt32 r.code = none → (mvTransform P now r).code = 0) ∧
    (∀ j, P.jsonCore r.attrs = some j → (mvTransform P now r).attrs = j) ∧
    (P.jsonCore r.attrs = none → (mvTransform P now r).attrs = Json.empty) := by
  refine ⟨?_, ?_, ?_, ?_, ?_, ?_⟩
  · intro t h
    simp [mvTransform, coalesce, parseDateTimeBestEffortOrNull, h]
  · intro h
    simp [mvTransform, coalesce, parseDateTimeBestEffortOrNull, h]
  · intro n h
    simp [mvTransform, toInt32OrZero, h]
  · intro h
    simp [mvTransform, toInt32OrZero, h]
  · intro j h
    simp [mvTransform, tryParseJson, h]
  · intro h
    simp [mvTransform, tryParseJson, h]

/-- Witness for C5: a row whose timestamp parses takes the parsed value; a
fully malformed row takes the receipt time, code `0` and empty attrs. -/
theorem mvTransform_fallbacks_witness :
    (mvTransform sampleParsers 5 raw310).ts = 1704067200000 ∧
    (mvTransform sampleParsers 5 rawBad).ts = 1704067300000 ∧
    (mvTransform sampleParsers 5 raw310).code = 200 ∧
    (mvTransform sampleParsers 5 rawBad).code = 0 ∧
    (mvTransform sampleParsers 5 rawBad).attrs = Json.empty := by
  refine ⟨?_, ?_, ?_, ?_, ?_⟩
  · exact (mvTransform_fallbacks sampleParsers 5 raw310).1 1704067200000
      (by decide)
  · exact (mvTransform_fallbacks sampleParsers 5 rawBad).2.1 (by decide)
  · exact (mvTransform_fallbacks sampleParsers 5 raw310).2.2.1 200 (by decide)
  · exact (mvTransform_fallbacks sampleParsers 5 rawBad).2.2.2.1 (by decide)
  · exact (mvTransform_fallbacks sampleParsers 5 rawBad).2.2.2.2.2 rfl

/-- Claim C6: the dedup token is exactly the decimal rendering of the
transport partition, a hyphen, and the decimal rendering of the offset;
for the spec scenario (partition 3, offset 10, code "200") the row carries
`dedup_token = "3-10"` and `code = 200`, independently of the parsers and
of the ingest clock. -/
theorem dedup_token_from_position (P : CHParsers) (now : Nat) (r : SrcRow) :
    (mvTransform P now r).dedup_token =
      toString r._partition ++ "-" ++ toString r._offset ∧
    (mvTransform P now raw310).dedup_token = "3-10" ∧
    (mvTransform P now raw310).code = 200 := by
  refine ⟨rfl, ?_, ?_⟩
  · show toString raw310._partition ++ "-" ++ toString raw310._offset = "3-10"
    decide
  · show toInt32OrZero raw310.code = 200
    decide

/-- Claim C1, counterexample: the merge pass does not group by
`dedup_token`.  Two resident rows of one partition share the token "0-0"
(redelivery of one transport message whose payload timestamp did not
parse), yet a merge pass keeps both, because their sorting keys differ: the
token group of size two does not shrink to one survivor. -/
theorem mergePass_not_by_token_counterexample :
    ceRowA.dedup_token = ceRowB.dedup_token ∧ ceRowA ≠ ceRowB ∧
    mergePass [ceRowA, ceRowB] = [ceRowA, ceRowB] ∧
    ((mergePass [ceRowA, ceRowB]).filter
      (fun x => decide (x.dedup_token = "0-0"))).length = 2 := by
  refine ⟨rfl, by decide, by decide, by decide⟩

/-- Claim C1 (amended): a merge pass groups the resident rows of a
partition by the physical sorting key (date, app, host, ts) — not by
`dedup_token` — and keeps exactly one surviving row per occupied sorting
key, never inventing rows; a row whose *sorting key* is unique in the
partition is not removed.  Rows sharing a token but differing in timestamp
are kept apart, and a unique token does not protect a row whose sorting key
collides with another row's. -/
theorem mergePass_dedups_by_sortKey (rows : List Row) :
    (∀ k ∈ rows.map sortKey,
      ((mergePass rows).filter (fun x => decide (sortKey x = k))).length = 1) ∧
    (∀ x ∈ mergePass rows, x ∈ rows) ∧
    (∀ r, groupRows (sortKey r) rows = [r] → r ∈ mergePass rows) := by
  refine ⟨?_, mergePass_subset rows, ?_⟩
  · intro k hk
    obtain ⟨r, hr, hkr⟩ := List.mem_map.mp hk
    exact mergePass_count rows k ⟨r, hr, hkr⟩
  · intro r h
    exact mergePass_of_unique rows r h

/-- Witness for the amended C1 theorem on a concrete two-row partition. -/
theorem mergePass_dedups_by_sortKey_witness :
    ((mergePass [ceRowA, ceRowB]).filter
      (fun x => decide (sortKey x = sortKey ceRowA))).length = 1 ∧
    ceRowA ∈ mergePass [ceRowA, ceRowB] := by
  have h := mergePass_dedups_by_sortKey [ceRowA, ceRowB]
  exact ⟨h.1 (sortKey ceRowA) (by simp),
    h.2.2 ceRowA (by decide)⟩

/-- Claim C2, counterexample: a collapsed group whose survivor is *not* the
row with the latest `ingest_time`: the version column is `dedup_token`, and
"9-0" is lexicographically greater than "10-0", so the row with
`ingest_time = 50` survives over the row with `ingest_time = 100`. -/
theorem mergePass_survivor_counterexample :
    sortKey ceRowC = sortKey ceRowD ∧
    ceRowD.ingest_time < ceRowC.ingest_time ∧
    mergePass [ceRowC, ceRowD] = [ceRowD] := by
  refine ⟨rfl, by decide, ?_⟩
  have ht : ¬ ceRowD.dedup_token < ceRowC.dedup_token := by
    show ¬ ("9-0" : String) < "10-0"
    rw [String.lt_iff_toList_lt]
    decide
  exact mergePass_pair_same_key ceRowC ceRowD rfl ht

/-- Claim C2 (amended): whenever a merge pass collapses a group of rows
sharing a sorting key, the surviving row is a member of the group whose
`dedup_token` (the engine's version column) is maximal in the group under
string order — not the row with the latest `ingest_time` — and the
selection is deterministic: the pass is a function of the resident rows. -/
theorem mergePass_survivor_max_version (rows : List Row)
    (k : Nat × String × String × Nat) (hk : ∃ r ∈ rows, sortKey r = k) :
    ∃ s, pickSurvivor (groupRows k rows) = some s ∧ s ∈ mergePass rows ∧
      s ∈ groupRows k rows ∧
      ∀ x ∈ groupRows k rows, x.dedup_token ≤ s.dedup_token := by
  obtain ⟨s, hs, hmem, hkey, hmax⟩ := pickSurvivor_spec k rows hk
  refine ⟨s, hs, ?_, mem_groupRows.mpr ⟨hmem, hkey⟩, hmax⟩
  exact List.mem_filterMap.mpr ⟨k, (mem_keys_iff rows k).mpr hk, hs⟩

/-- Witness for the amended C2 theorem on a concrete two-row partition. -/
theorem mergePass_survivor_max_version_witness :
    ∃ s, pickSurvivor (groupRows (sortKey ceRowC) [ceRowC, ceRowD]) = some s ∧
      s ∈ mergePass [ceRowC, ceRowD] ∧
      s ∈ groupRows (sortKey ceRowC) [ceRowC, ceRowD] ∧
      ∀ x ∈ groupRows (sortKey ceRowC) [ceRowC, ceRowD],
        x.dedup_token ≤ s.dedup_token :=
  mergePass_survivor_max_version [ceRowC, ceRowD] (sortKey ceRowC)
    ⟨ceRowC, by decide, rfl⟩

/-- Claim C7: dedup is idempotent over redelivery — the rows derived from
one transport message delivered twice (identical payload and position, any
two ingest clocks) share the sorting key and the token, so one merge pass
leaves exactly one row carrying that `dedup_token`. -/
theorem dedup_idempotent (P : CHParsers) (t1 t2 : Nat) (raw : SrcRow) :
    mergePass [mvTransform P t1 raw, mvTransform P t2 raw] =
      [mvTransform P t2 raw] ∧
    ((mergePass [mvTransform P t1 raw, mvTransform P t2 raw]).filter
      (fun x =>
        decide (x.dedup_token = (mvTransform P t1 raw).dedup_token))).length
      = 1 := by
  have hpair : mergePass [mvTransform P t1 raw, mvTransform P t2 raw] =
      [mvTransform P t2 raw] :=
    mergePass_pair_same_key _ _ rfl (lt_irrefl _)
  refine ⟨hpair, ?_⟩
  rw [hpair]
  simp [mvTransform]

/-- Claim C10: the merge can delete a row whose `dedup_token` is unique in
the store: `ceRowE` (token "0-5") and `ceRowF` (token "0-6") share the full
sorting key, and one merge pass keeps only `ceRowF`, leaving no row with
token "0-5". -/
theorem mergePass_deletes_unique_token :
    ceRowE.dedup_token ≠ ceRowF.dedup_token ∧
    sortKey ceRowE = sortKey ceRowF ∧
    mergePass [ceRowE, ceRowF] = [ceRowF] ∧
    ((mergePass [ceRowE, ceRowF]).filter
      (fun x => decide (x.dedup_token = "0-5"))).length = 0 := by
  have ht : ¬ ceRowF.dedup_token < ceRowE.dedup_token := by
    show ¬ ("0-6" : String) < "0-5"
    rw [String.lt_iff_toList_lt]
    decide
  have hpair := mergePass_pair_same_key ceRowE ceRowF rfl ht
  refine ⟨by decide, rfl, hpair, ?_⟩
  rw [hpair]
  decide

/-- Claim C8: retention is measured from the event timestamp `ts`, not
`ingest_time` — a row strictly older than the horizon is gone after a
background pass run after the horizon, a row newer than the horizon is
never deleted by the TTL filter, and expiry at a given wall clock depends
on `ts` alone. -/
theorem retention_from_event_time (now : Nat) (rows : List Row) (r : Row) :
    (r.ts + retentionMs < now → r ∉ reconcilePass now rows) ∧
    (r ∈ rows → now < r.ts + retentionMs → r ∈ ttlPass now rows) ∧
    (∀ x : Row, x.ts = r.ts → rowExpired now x = rowExpired now r) := by
  refine ⟨?_, ?_, ?_⟩
  · intro hold hmem
    have h2 := (List.mem_filter.mp hmem).2
    simp only [rowExpired, Bool.not_eq_true', decide_eq_false_iff_not,
      not_le] at h2
    omega
  · intro hmem hfresh
    refine List.mem_filter.mpr ⟨hmem, ?_⟩
    simp only [rowExpired, Bool.not_eq_true', decide_eq_false_iff_not, not_le]
    omega
  · intro x hx
    simp [rowExpired, hx]

/-- Witness for C8: with the wall clock one millisecond past the horizon of
`oldRow` (event time 0), a pass removes `oldRow` and keeps `freshRow`. -/
theorem retention_from_event_time_witness :
    oldRow ∉ reconcilePass (retentionMs + 1) [oldRow, freshRow] ∧
    freshRow ∈ ttlPass (retentionMs + 1) [oldRow, freshRow] := by
  constructor
  · exact (retention_from_event_time (retentionMs + 1) [oldRow, freshRow]
      oldRow).1 (by decide)
  · exact (retention_from_event_time (retentionMs + 1) [oldRow, freshRow]
      freshRow).2.1 (by decide) (by decide)

end LogPipeline
